import Mathlib

/-!
Verification development for the `ach` tool (`src/main.rs`).

The tool resolves, for the currently checked-out commit, the pull request
that introduced it and the work items linked to that pull request, by
querying the Azure DevOps service.

Shallow embedding notes:

* Strings handled by the locator parser are embedded as `List Char`
  (Rust `&str` viewed as a character sequence); commit identifiers and
  work-item identifier strings are embedded as `String`.
* The two anchored regexes of `parse_azure_git_url` are embedded as
  explicit character-level matchers.  Both regexes are deterministic:
  every capture group is a character class that excludes the delimiter
  that follows it (`[^/]+` before `/` or end, `[^@]+` before `@`), so a
  backtracking engine has exactly one way to match and the greedy-scan
  embedding below is exact.
* The remote service is an oracle record (`AdoService`): each of the
  three read-only query operations used by the code is a field returning
  `Except ServiceError …`, mirroring `Result<…>` in the source.  The
  `org`/`project` coordinates are fixed per client and are therefore not
  part of the oracle's keys; calls are keyed exactly by the varying
  arguments the source passes (`repository.id`, `pull_request_id`).
* A Rust panic (`expect` on a failed parse) aborts the process; it is not
  a `Result::Err` and is not caught by `unwrap_or`.  Computations that can
  panic return `ProcessOutcome`, whose `aborted` constructor models the
  panic/abort and whose `value` constructor models normal completion.
-/

/-! ## Locator parser (`parse_azure_git_url`, src/main.rs lines 12-36) -/

structure AzureRepoComponents where
  org : List Char
  project : List Char
  repo : List Char
deriving DecidableEq, Repr

/-- Whitespace test used by `trimChars`; models Rust `str::trim` on the
character range these locators use. -/
def isWS (c : Char) : Bool :=
  c = ' ' || c = '\t' || c = '\n' || c = '\r'

/-- Model of Rust `str::trim().to_string()` applied to a captured segment:
drop leading and trailing whitespace. -/
def trimChars (l : List Char) : List Char :=
  ((l.dropWhile isWS).reverse.dropWhile isWS).reverse

/-- Consume the exact literal `lit` from the front of `l`, returning the
remainder; models the fixed literal part of an anchored regex. -/
def dropLit : List Char → List Char → Option (List Char)
  | [], l => some l
  | _ :: _, [] => none
  | a :: as, c :: cs => if c = a then dropLit as cs else none

/-- Split at the first occurrence of `sep`, returning the (possibly empty)
part before it and the part after it; models `([^@]+)@` when the part
before is required nonempty. -/
def breakAt (sep : Char) : List Char → Option (List Char × List Char)
  | [] => none
  | c :: rest =>
    if c = sep then some ([], rest)
    else (breakAt sep rest).map (fun p => (c :: p.1, p.2))

/-- Split on every occurrence of `sep`; a sequence of `n` separators yields
`n+1` (possibly empty) parts.  `([^/]+)/([^/]+)/([^/]+)$` matches a string
exactly when this split yields exactly three nonempty parts. -/
def splitOnChar (sep : Char) : List Char → List (List Char)
  | [] => [[]]
  | c :: rest =>
    let r := splitOnChar sep rest
    if c = sep then [] :: r
    else
      match r with
      | [] => [[c]]
      | s :: ss => (c :: s) :: ss

def sshLit : List Char := "git@ssh.dev.azure.com:v3/".toList

def httpsLit : List Char := "https://".toList

def hostLit : List Char := "dev.azure.com/".toList

def gitSeg : List Char := "_git".toList

/-- Embedding of the SSH regex
`^git@ssh\.dev\.azure\.com:v3/([^/]+)/([^/]+)/([^/]+)$`:
the fixed literal, then exactly three nonempty slash-free segments spanning
the rest of the input; captures 1-3 are trimmed (source lines 19-25). -/
def sshMatch (url : List Char) : Option AzureRepoComponents :=
  match dropLit sshLit url with
  | none => none
  | some rest =>
    match splitOnChar '/' rest with
    | [a, b, c] =>
      if a ≠ [] ∧ b ≠ [] ∧ c ≠ [] then
        some ⟨trimChars a, trimChars b, trimChars c⟩
      else none
    | _ => none

/-- Embedding of the HTTPS regex
`^https://([^@]+)@dev\.azure\.com/([^/]+)/([^/]+)/_git/([^/]+)$`:
scheme literal, a nonempty principal running to the first `@`, the host
literal, then a path splitting into exactly `org/project/_git/repo`;
capture 1 (the principal) is discarded, captures 2-4 are trimmed
(source lines 27-33). -/
def httpsMatch (url : List Char) : Option AzureRepoComponents :=
  match dropLit httpsLit url with
  | none => none
  | some rest =>
    match breakAt '@' rest with
    | none => none
    | some (principal, afterAt) =>
      if principal = [] then none
      else
        match dropLit hostLit afterAt with
        | none => none
        | some path =>
          match splitOnChar '/' path with
          | [a, b, g, c] =>
            if g = gitSeg ∧ a ≠ [] ∧ b ≠ [] ∧ c ≠ [] then
              some ⟨trimChars a, trimChars b, trimChars c⟩
            else none
          | _ => none

/-- Embedding of `parse_azure_git_url` (source lines 12-36): try the SSH
form first, then the HTTPS form, else `None`. -/
def parse_azure_git_url (url : List Char) : Option AzureRepoComponents :=
  match sshMatch url with
  | some components => some components
  | none => httpsMatch url

/-! ## Remote data model and service oracle -/

/-- Opaque transport/service error carried by a failing remote call
(`anyhow::Error` from the `azure_devops_rust_api` client). -/
structure ServiceError where
  code : Nat
deriving DecidableEq, Repr

/-- The fields of `GitPullRequest` the program reads: `pull_request_id`
and `repository.id`. -/
structure GitPullRequest where
  pull_request_id : Int
  repository_id : String
deriving DecidableEq, Repr

/-- A commit entry returned by `get_pull_request_commits`; its
`commit_id` field is optional in the service model. -/
structure GitCommitRef where
  commit_id : Option String
deriving DecidableEq, Repr

/-- A work-item resource reference returned by the work-items `list`
call; its `id` field is an optional string. -/
structure ResourceRef where
  id : Option String
deriving DecidableEq, Repr

/-- Oracle for the three read-only remote calls the client makes.  The
`org`/`project`/`repo` coordinates are fixed per run, so each field is
keyed only by the arguments that vary across calls in the source:
commits by `(repository.id, pull_request_id)`, work items by
`pull_request_id`. -/
structure AdoService where
  get_pull_requests : Except ServiceError (List GitPullRequest)
  get_pull_request_commits : String → Int → Except ServiceError (List GitCommitRef)
  work_items_list : Int → Except ServiceError (List ResourceRef)

deriving instance DecidableEq for Except

/-- Outcome of running a computation that may panic: `aborted` models a
Rust panic (`expect` failing), which unwinds to `main` and terminates the
process; `value` models normal completion with a result. -/
inductive ProcessOutcome (α : Type) where
  | aborted : ProcessOutcome α
  | value : α → ProcessOutcome α
deriving DecidableEq, Repr

/-! ## Work-item id parsing (`id.parse::<i32>()`) -/

/-- Digit-run parser: `some` of the value when the list is a nonempty
all-digit sequence, else `none`. -/
def parseDigits (l : List Char) : Option Nat :=
  if l = [] then none
  else if l.all Char.isDigit then
    some (l.foldl (fun n c => n * 10 + (c.toNat - 48)) 0)
  else none

/-- Embedding of Rust `str::parse::<i32>()`: optional sign, then a
nonempty run of ASCII digits spanning the whole string, with the value
required to fit in a 32-bit signed integer. -/
def parse_i32 (s : String) : Option Int :=
  match s.data with
  | '+' :: rest => (parseDigits rest).bind
      (fun n => if n ≤ 2 ^ 31 - 1 then some (n : Int) else none)
  | '-' :: rest => (parseDigits rest).bind
      (fun n => if n ≤ 2 ^ 31 then some (-(n : Int)) else none)
  | l => (parseDigits l).bind
      (fun n => if n ≤ 2 ^ 31 - 1 then some (n : Int) else none)

/-! ## AchClient methods (src/main.rs lines 96-171) -/

namespace AchClient

/-- Embedding of `repo_pull_requets` (source lines 96-102): a single
unpaginated listing call, propagating any transport error. -/
def repo_pull_requets (s : AdoService) : Except ServiceError (List GitPullRequest) :=
  s.get_pull_requests

/-- Embedding of `pull_request_commit_ids` (source lines 104-120): fetch
the commit entries for one pull request, propagate a transport error,
and flat-map over the optional `commit_id` field, so entries with an
absent id are skipped and the rest are kept in service order. -/
def pull_request_commit_ids (s : AdoService) (pr : GitPullRequest) :
    Except ServiceError (List String) :=
  match s.get_pull_request_commits pr.repository_id pr.pull_request_id with
  | .error e => .error e
  | .ok commits => .ok (commits.flatMap (fun commit => commit.commit_id.toList))

/-- Left-to-right traversal of the work-item references inside
`pull_request_work_item_ids`: references with an absent `id` are skipped
by the `flat_map` over `Option`; a present id that fails to parse hits
`expect`, which panics and aborts the run. -/
def collect_work_item_ids : List ResourceRef → ProcessOutcome (List Int)
  | [] => .value []
  | r :: rest =>
    match r.id with
    | none => collect_work_item_ids rest
    | some idStr =>
      match parse_i32 idStr with
      | none => .aborted
      | some n =>
        match collect_work_item_ids rest with
        | .aborted => .aborted
        | .value l => .value (n :: l)

/-- Embedding of `pull_request_work_item_ids` (source lines 122-143): a
transport error on the listing call is returned as `Err`; a non-parsing
identifier string panics (aborts) instead of returning. -/
def pull_request_work_item_ids (s : AdoService) (pr : GitPullRequest) :
    ProcessOutcome (Except ServiceError (List Int)) :=
  match s.work_items_list pr.pull_request_id with
  | .error e => .value (.error e)
  | .ok refs =>
    match collect_work_item_ids refs with
    | .aborted => .aborted
    | .value l => .value (.ok l)

/-- Inner loop of `pull_request` (source lines 146-152): scan a commit-id
list in order for exact string equality with `head`. -/
def contains_commit (head : String) : List String → Bool
  | [] => false
  | c :: rest => if c = head then true else contains_commit head rest

/-- Outer loop of `pull_request`: walk the pull requests in service
order; fetch each one's commit ids (a transport error aborts the whole
scan); return the first pull request whose commits contain `head`. -/
def scan_pull_requests (s : AdoService) (head : String) :
    List GitPullRequest → Except ServiceError (Option GitPullRequest)
  | [] => .ok none
  | pr :: rest =>
    match pull_request_commit_ids s pr with
    | .error e => .error e
    | .ok commits =>
      if contains_commit head commits then .ok (some pr)
      else scan_pull_requests s head rest

/-- Embedding of `pull_request` (source lines 145-154): list the pull
requests (propagating a transport error) and scan them. -/
def pull_request (s : AdoService) (head : String) :
    Except ServiceError (Option GitPullRequest) :=
  match repo_pull_requets s with
  | .error e => .error e
  | .ok prs => scan_pull_requests s head prs

end AchClient

/-- The report the program prints: pull request id plus linked work-item
ids (`AchInfo`, source lines 64-67). -/
structure AchInfo where
  pr : Int
  work_items : List Int
deriving DecidableEq, Repr

namespace AchClient

/-- Embedding of `info` (source lines 156-171): resolver absence and
resolver errors propagate; on a match, the enrichment result is
`unwrap_or(vec![])` — an `Err` is downgraded to an empty list, but a
panic inside the enrichment is not caught and aborts the run. -/
def info (s : AdoService) (head : String) :
    ProcessOutcome (Except ServiceError (Option AchInfo)) :=
  match pull_request s head with
  | .error e => .value (.error e)
  | .ok none => .value (.ok none)
  | .ok (some pr) =>
    match pull_request_work_item_ids s pr with
    | .aborted => .aborted
    | .value r =>
      .value (.ok (some ⟨pr.pull_request_id, match r with
        | .ok l => l
        | .error _ => []⟩))

end AchClient

/-! ## Helper lemmas about the matcher building blocks -/

theorem dropLit_append (lit r : List Char) : dropLit lit (lit ++ r) = some r := by
  induction lit with
  | nil => rfl
  | cons a as ih => simp [dropLit, ih]

theorem dropLit_eq_some {lit l r : List Char} (h : dropLit lit l = some r) :
    l = lit ++ r := by
  induction lit generalizing l with
  | nil => simpa [dropLit] using h
  | cons a as ih =>
    cases l with
    | nil => simp [dropLit] at h
    | cons c cs =>
      by_cases hca : c = a
      · subst hca
        simp only [dropLit, if_pos rfl] at h
        simpa using ih h
      · simp [dropLit, hca] at h

theorem breakAt_append (sep : Char) {x : List Char} (hx : sep ∉ x) (y : List Char) :
    breakAt sep (x ++ sep :: y) = some (x, y) := by
  induction x with
  | nil => simp [breakAt]
  | cons c cs ih =>
    have hc : c ≠ sep := fun h => hx (h ▸ List.mem_cons_self c cs)
    have hcs : sep ∉ cs := fun h => hx (List.mem_cons_of_mem c h)
    simp [breakAt, hc, ih hcs]

theorem breakAt_eq_some {sep : Char} {l x y : List Char}
    (h : breakAt sep l = some (x, y)) : l = x ++ sep :: y ∧ sep ∉ x := by
  induction l generalizing x with
  | nil => simp [breakAt] at h
  | cons c cs ih =>
    by_cases hc : c = sep
    · simp [breakAt, hc] at h
      obtain ⟨hx, hy⟩ := h
      subst hy
      subst hx
      simp [hc]
    · rcases hbr : breakAt sep cs with _ | ⟨x', y'⟩
      · simp [breakAt, hc, hbr] at h
      · simp [breakAt, hc, hbr] at h
        obtain ⟨hx, hy⟩ := h
        subst hy
        obtain ⟨hcs, hsep⟩ := ih hbr
        subst hcs
        refine ⟨by simp [← hx], ?_⟩
        rw [← hx]
        intro hmem
        rcases List.mem_cons.mp hmem with h1 | h2
        · exact hc h1.symm
        · exact hsep h2

theorem splitOnChar_ne_nil (sep : Char) (l : List Char) : splitOnChar sep l ≠ [] := by
  cases l with
  | nil => simp [splitOnChar]
  | cons c rest =>
    by_cases hc : c = sep
    · simp [splitOnChar, hc]
    · cases hr : splitOnChar sep rest <;> simp [splitOnChar, hc, hr]

theorem splitOnChar_no_sep {sep : Char} {l : List Char} (h : sep ∉ l) :
    splitOnChar sep l = [l] := by
  induction l with
  | nil => rfl
  | cons c cs ih =>
    have hc : c ≠ sep := fun hcs => h (hcs ▸ List.mem_cons_self c cs)
    have hcs : sep ∉ cs := fun hm => h (List.mem_cons_of_mem c hm)
    simp [splitOnChar, hc, ih hcs]

theorem splitOnChar_cons_of_ne {sep c : Char} (hc : c ≠ sep) {l s : List Char}
    {ss : List (List Char)} (h : splitOnChar sep l = s :: ss) :
    splitOnChar sep (c :: l) = (c :: s) :: ss := by
  simp [splitOnChar, hc, h]

theorem splitOnChar_append_sep {sep : Char} {x : List Char} (hx : sep ∉ x)
    (rest : List Char) :
    splitOnChar sep (x ++ sep :: rest) = x :: splitOnChar sep rest := by
  induction x with
  | nil => simp [splitOnChar]
  | cons c cs ih =>
    have hc : c ≠ sep := fun h => hx (h ▸ List.mem_cons_self c cs)
    have hcs : sep ∉ cs := fun h => hx (List.mem_cons_of_mem c h)
    rw [List.cons_append]
    exact splitOnChar_cons_of_ne hc (ih hcs)

/-- Join with a separator: left inverse of `splitOnChar`. -/
def joinSeps (sep : Char) : List (List Char) → List Char
  | [] => []
  | [p] => p
  | p :: q :: ps => p ++ sep :: joinSeps sep (q :: ps)

theorem joinSeps_splitOnChar (sep : Char) (l : List Char) :
    joinSeps sep (splitOnChar sep l) = l := by
  induction l with
  | nil => rfl
  | cons c rest ih =>
    rcases hr : splitOnChar sep rest with _ | ⟨s, ss⟩
    · exact absurd hr (splitOnChar_ne_nil sep rest)
    · rw [hr] at ih
      by_cases hc : c = sep
      · have hsplit : splitOnChar sep (c :: rest) = [] :: s :: ss := by
          simp [splitOnChar, hc, hr]
        rw [hsplit]
        simp only [joinSeps, List.nil_append]
        rw [ih, hc]
      · rw [splitOnChar_cons_of_ne hc hr]
        cases ss with
        | nil =>
          simp only [joinSeps] at ih ⊢
          rw [ih]
        | cons t ts =>
          simp only [joinSeps] at ih ⊢
          rw [List.cons_append, ih]

theorem mem_splitOnChar_not_sep {sep : Char} {l p : List Char}
    (hp : p ∈ splitOnChar sep l) : sep ∉ p := by
  induction l generalizing p with
  | nil =>
    simp [splitOnChar] at hp
    simp [hp]
  | cons c rest ih =>
    by_cases hc : c = sep
    · have hsplit : splitOnChar sep (c :: rest) = [] :: splitOnChar sep rest := by
        simp [splitOnChar, hc]
      rw [hsplit] at hp
      rcases List.mem_cons.mp hp with h1 | h2
      · simp [h1]
      · exact ih h2
    · rcases hr : splitOnChar sep rest with _ | ⟨s, ss⟩
      · exact absurd hr (splitOnChar_ne_nil sep rest)
      · rw [splitOnChar_cons_of_ne hc hr] at hp
        rcases List.mem_cons.mp hp with h1 | h2
        · subst h1
          intro hmem
          rcases List.mem_cons.mp hmem with h3 | h4
          · exact hc h3.symm
          · exact ih (by rw [hr]; exact List.mem_cons_self s ss) h4
        · exact ih (by rw [hr]; exact List.mem_cons_of_mem s h2)

/-! ## Accepted locator forms, stated from the spec's words -/

/-- Well-formed SSH-form locator built from three segments:
`git@ssh.dev.azure.com:v3/<org>/<project>/<repo>`. -/
def sshUrl (a b c : List Char) : List Char :=
  sshLit ++ (a ++ '/' :: (b ++ '/' :: c))

/-- Well-formed HTTPS-form locator built from a principal and three
segments: `https://<principal>@dev.azure.com/<org>/<project>/_git/<repo>`. -/
def httpsUrl (u a b c : List Char) : List Char :=
  httpsLit ++ (u ++ '@' :: (hostLit ++ (a ++ '/' :: (b ++ '/' :: (gitSeg ++ '/' :: c)))))

/-- Spec-side description of the SSH address form: the entire input is the
fixed SSH head followed by exactly three nonempty slash-free segments. -/
def SshFormSpec (url : List Char) : Prop :=
  ∃ a b c : List Char,
    a ≠ [] ∧ b ≠ [] ∧ c ≠ [] ∧ '/' ∉ a ∧ '/' ∉ b ∧ '/' ∉ c ∧ url = sshUrl a b c

/-- Spec-side description of the HTTPS address form: the entire input is
the scheme, a nonempty principal free of `@`, the fixed host, and the
`org/project/_git/repo` path with nonempty slash-free segments. -/
def HttpsFormSpec (url : List Char) : Prop :=
  ∃ u a b c : List Char,
    u ≠ [] ∧ '@' ∉ u ∧ a ≠ [] ∧ b ≠ [] ∧ c ≠ [] ∧
    '/' ∉ a ∧ '/' ∉ b ∧ '/' ∉ c ∧ url = httpsUrl u a b c

theorem sshMatch_some_form {url : List Char} {comps : AzureRepoComponents}
    (h : sshMatch url = some comps) : SshFormSpec url := by
  unfold sshMatch at h
  split at h
  · exact absurd h (by simp)
  next rest hdl =>
    split at h
    next a b c hsp =>
      split at h
      next hcond =>
        obtain ⟨ha, hb, hcne⟩ := hcond
        have hurl := dropLit_eq_some hdl
        have hjoin := joinSeps_splitOnChar '/' rest
        rw [hsp] at hjoin
        simp only [joinSeps] at hjoin
        refine ⟨a, b, c, ha, hb, hcne, ?_, ?_, ?_, ?_⟩
        · exact mem_splitOnChar_not_sep (by rw [hsp]; simp)
        · exact mem_splitOnChar_not_sep (by rw [hsp]; simp)
        · exact mem_splitOnChar_not_sep (by rw [hsp]; simp)
        · rw [hurl, ← hjoin]; rfl
      next => exact absurd h (by simp)
    next => exact absurd h (by simp)

theorem httpsMatch_some_form {url : List Char} {comps : AzureRepoComponents}
    (h : httpsMatch url = some comps) : HttpsFormSpec url := by
  unfold httpsMatch at h
  split at h
  · exact absurd h (by simp)
  next rest hdl =>
    split at h
    · exact absurd h (by simp)
    next principal afterAt hbr =>
      split at h
      · exact absurd h (by simp)
      next hpne =>
        split at h
        · exact absurd h (by simp)
        next path hhost =>
          split at h
          next a b g c hsp =>
            split at h
            next hcond =>
              obtain ⟨hg, ha, hb, hcne⟩ := hcond
              have hurl := dropLit_eq_some hdl
              obtain ⟨hrest, hat⟩ := breakAt_eq_some hbr
              have hafter := dropLit_eq_some hhost
              have hjoin := joinSeps_splitOnChar '/' path
              rw [hsp] at hjoin
              simp only [joinSeps] at hjoin
              refine ⟨principal, a, b, c, hpne, hat, ha, hb, hcne, ?_, ?_, ?_, ?_⟩
              · exact mem_splitOnChar_not_sep (by rw [hsp]; simp)
              · exact mem_splitOnChar_not_sep (by rw [hsp]; simp)
              · exact mem_splitOnChar_not_sep (by rw [hsp]; simp)
              · rw [hurl, hrest, hafter, ← hjoin, hg]; rfl
            next => exact absurd h (by simp)
          next => exact absurd h (by simp)

/-! ## Concrete malformed locators (the families named by the spec) -/

def okSshUrl : List Char := "git@ssh.dev.azure.com:v3/MyOrg/MyProject/MyRepo".toList

def wrongSepUrl : List Char := "git@ssh.dev.azure.com:MyOrg/MyProject/MyRepo".toList

def noPrincipalUrl : List Char := "https://dev.azure.com/MyOrg/MyProject/_git/MyRepo".toList

def unrelatedUrl : List Char := "https://github.com/user/repo.git".toList

def trailingSlashUrl : List Char := "https://org@dev.azure.com/org/project/_git/repo/".toList

def extraSegmentUrl : List Char := "git@ssh.dev.azure.com:v3/MyOrg/MyProject/MyRepo/extra".toList

/-- Claim C4: locator parsing is total and whole-string anchored.  Totality
is intrinsic to the embedding (`parse_azure_git_url` is a total function
into `Option`, never an error).  Anchoring: any successful parse forces
the entire input to be exactly one of the two accepted address forms; and
each malformed family named by the spec — SSH form with the wrong
separator, HTTPS form missing the authentication principal, an
unrelated-host URL, a trailing slash, an extra path segment, and the
empty string — yields `none`. -/
theorem parse_total_and_anchored :
    (∀ url comps, parse_azure_git_url url = some comps →
       SshFormSpec url ∨ HttpsFormSpec url)
    ∧ parse_azure_git_url wrongSepUrl = none
    ∧ parse_azure_git_url noPrincipalUrl = none
    ∧ parse_azure_git_url unrelatedUrl = none
    ∧ parse_azure_git_url trailingSlashUrl = none
    ∧ parse_azure_git_url extraSegmentUrl = none
    ∧ parse_azure_git_url [] = none := by
  refine ⟨?_, by decide, by decide, by decide, by decide, by decide, by decide⟩
  intro url comps h
  unfold parse_azure_git_url at h
  rcases hs : sshMatch url with _ | c
  · rw [hs] at h
    exact Or.inr (httpsMatch_some_form h)
  · exact Or.inl (sshMatch_some_form hs)

/-- Witness for C4 at a concrete input: the well-formed SSH example
parses, so by the theorem it is entirely in one of the accepted forms. -/
theorem parse_total_and_anchored_witness :
    SshFormSpec okSshUrl ∨ HttpsFormSpec okSshUrl :=
  parse_total_and_anchored.1 okSshUrl
    ⟨"MyOrg".toList, "MyProject".toList, "MyRepo".toList⟩ (by decide)

/-- Claim C5: every well-formed SSH-form locator
`git@ssh.dev.azure.com:v3/<org>/<project>/<repo>` whose three segments are
nonempty and contain no `/` parses to exactly those segments — taken
verbatim (hyphens and underscores included) up to trimming of surrounding
whitespace. -/
theorem ssh_form_parses_segments (a b c : List Char)
    (ha : a ≠ []) (hb : b ≠ []) (hc : c ≠ [])
    (ha' : '/' ∉ a) (hb' : '/' ∉ b) (hc' : '/' ∉ c) :
    parse_azure_git_url (sshUrl a b c) =
      some ⟨trimChars a, trimChars b, trimChars c⟩ := by
  have hssh : sshMatch (sshUrl a b c) =
      some ⟨trimChars a, trimChars b, trimChars c⟩ := by
    unfold sshUrl
    simp only [sshMatch, dropLit_append, splitOnChar_append_sep ha',
      splitOnChar_append_sep hb', splitOnChar_no_sep hc']
    simp [ha, hb, hc]
  unfold parse_azure_git_url
  rw [hssh]

def orgSeg : List Char := "Org_Name".toList

def projSeg : List Char := "proj-name".toList

def repoSeg : List Char := "Repo_Name".toList

/-- Witness for C5: a concrete SSH locator with underscores and a hyphen
in its segments parses to those segments verbatim. -/
theorem ssh_form_parses_segments_witness :
    parse_azure_git_url (sshUrl orgSeg projSeg repoSeg) =
      some ⟨trimChars orgSeg, trimChars projSeg, trimChars repoSeg⟩ :=
  ssh_form_parses_segments orgSeg projSeg repoSeg (by decide) (by decide)
    (by decide) (by decide) (by decide) (by decide)

/-- Claim C6: every well-formed HTTPS-form locator
`https://<principal>@dev.azure.com/<org>/<project>/_git/<repo>` parses to
the three path segments after the host; the conclusion does not mention
the principal at all, so the same coordinates are returned for any
principal, in particular one differing from the organization segment. -/
theorem https_form_discards_principal (u a b c : List Char)
    (hu : u ≠ []) (hu' : '@' ∉ u)
    (ha : a ≠ []) (hb : b ≠ []) (hc : c ≠ [])
    (ha' : '/' ∉ a) (hb' : '/' ∉ b) (hc' : '/' ∉ c) :
    parse_azure_git_url (httpsUrl u a b c) =
      some ⟨trimChars a, trimChars b, trimChars c⟩ := by
  have hgit : ('/' : Char) ∉ gitSeg := by decide
  have hssh : sshMatch (httpsUrl u a b c) = none := rfl
  have hhttps : httpsMatch (httpsUrl u a b c) =
      some ⟨trimChars a, trimChars b, trimChars c⟩ := by
    unfold httpsUrl
    simp only [httpsMatch, dropLit_append, breakAt_append '@' hu',
      splitOnChar_append_sep ha', splitOnChar_append_sep hb',
      splitOnChar_append_sep hgit, splitOnChar_no_sep hc']
    simp [hu, ha, hb, hc]
  unfold parse_azure_git_url
  rw [hssh, hhttps]

def userSeg : List Char := "user".toList

def someOrgSeg : List Char := "SomeOrg".toList

def someProjSeg : List Char := "SomeProject".toList

def someRepoSeg : List Char := "SomeRepo".toList

/-- Witness for C6 at concrete inputs: with principal `user` (different
from the organization `SomeOrg`) and with principal `SomeOrg` itself, the
parse yields the same coordinates, both obtained from the theorem. -/
theorem https_form_discards_principal_witness :
    parse_azure_git_url (httpsUrl userSeg someOrgSeg someProjSeg someRepoSeg) =
      some ⟨trimChars someOrgSeg, trimChars someProjSeg, trimChars someRepoSeg⟩
    ∧ parse_azure_git_url (httpsUrl someOrgSeg someOrgSeg someProjSeg someRepoSeg) =
      some ⟨trimChars someOrgSeg, trimChars someProjSeg, trimChars someRepoSeg⟩ :=
  ⟨https_form_discards_principal userSeg someOrgSeg someProjSeg someRepoSeg
      (by decide) (by decide) (by decide) (by decide) (by decide) (by decide)
      (by decide) (by decide),
   https_form_discards_principal someOrgSeg someOrgSeg someProjSeg someRepoSeg
      (by decide) (by decide) (by decide) (by decide) (by decide) (by decide)
      (by decide) (by decide)⟩

/-! ## Resolver helper lemmas -/

theorem scan_skip (s : AdoService) (head : String) {l1 : List GitPullRequest}
    (h1 : ∀ q ∈ l1, ∃ cs, AchClient.pull_request_commit_ids s q = .ok cs ∧
        AchClient.contains_commit head cs = false)
    (rest : List GitPullRequest) :
    AchClient.scan_pull_requests s head (l1 ++ rest) =
      AchClient.scan_pull_requests s head rest := by
  induction l1 with
  | nil => rfl
  | cons q t ih =>
    obtain ⟨cs, hok, hfalse⟩ := h1 q (List.mem_cons_self q t)
    have ht : ∀ q' ∈ t, ∃ cs', AchClient.pull_request_commit_ids s q' = .ok cs' ∧
        AchClient.contains_commit head cs' = false :=
      fun q' hq' => h1 q' (List.mem_cons_of_mem q hq')
    rw [List.cons_append]
    simp only [AchClient.scan_pull_requests, hok, hfalse]
    exact ih ht

theorem collect_aborted_of_bad {refs : List ResourceRef} {r : ResourceRef}
    {sid : String} (hmem : r ∈ refs) (hid : r.id = some sid)
    (hbad : parse_i32 sid = none) :
    AchClient.collect_work_item_ids refs = ProcessOutcome.aborted := by
  induction refs with
  | nil => cases hmem
  | cons x t ih =>
    rcases List.mem_cons.mp hmem with hrx | hmt
    · subst hrx
      simp [AchClient.collect_work_item_ids, hid, hbad]
    · have ht := ih hmt
      rcases hx : x.id with _ | xs
      · simpa [AchClient.collect_work_item_ids, hx] using ht
      · rcases hpx : parse_i32 xs with _ | n
        · simp [AchClient.collect_work_item_ids, hx, hpx]
        · simp [AchClient.collect_work_item_ids, hx, hpx, ht]

theorem flatMap_toList_eq_filterMap (l : List GitCommitRef) :
    l.flatMap (fun commit => commit.commit_id.toList) =
      l.filterMap GitCommitRef.commit_id := by
  induction l with
  | nil => rfl
  | cons x t ih =>
    rcases hx : x.commit_id with _ | v <;>
      simp [List.flatMap_cons, List.filterMap_cons, hx, ih]

/-! ## Concrete service fixtures for witnesses and counterexamples -/

def prA : GitPullRequest := ⟨42, "repoA"⟩

def prB : GitPullRequest := ⟨7, "repoB"⟩

def headAbc : String := "abc123"

/-- Both pull requests contain the target commit. -/
def svcTie : AdoService where
  get_pull_requests := .ok [prA, prB]
  get_pull_request_commits := fun _ _ => .ok [⟨some "abc123"⟩]
  work_items_list := fun _ => .ok []

/-- The earlier pull request differs from the target only by letter case. -/
def svcCase : AdoService where
  get_pull_requests := .ok [prA, prB]
  get_pull_request_commits := fun rid _ =>
    if rid = "repoA" then .ok [⟨some "ABC123"⟩] else .ok [⟨some "abc123"⟩]
  work_items_list := fun _ => .ok []

/-- No pull request contains the target commit. -/
def svcNone : AdoService where
  get_pull_requests := .ok [prA, prB]
  get_pull_request_commits := fun _ _ => .ok [⟨some "def456"⟩]
  work_items_list := fun _ => .ok []

/-- Listing the pull requests fails with a transport error. -/
def svcListErr : AdoService where
  get_pull_requests := .error ⟨5⟩
  get_pull_request_commits := fun _ _ => .ok []
  work_items_list := fun _ => .ok []

/-- Fetching the first pull request's commit list fails. -/
def svcCommitErr : AdoService where
  get_pull_requests := .ok [prA, prB]
  get_pull_request_commits := fun _ _ => .error ⟨7⟩
  work_items_list := fun _ => .ok []

/-- The resolved pull request has a work-item reference whose id string is
not numeric. -/
def svcBad : AdoService where
  get_pull_requests := .ok [prA]
  get_pull_request_commits := fun _ _ => .ok [⟨some "abc123"⟩]
  work_items_list := fun _ => .ok [⟨some "abc"⟩]

/-- The work-item listing call fails with a transport error. -/
def svcWiErr : AdoService where
  get_pull_requests := .ok [prA]
  get_pull_request_commits := fun _ _ => .ok [⟨some "abc123"⟩]
  work_items_list := fun _ => .error ⟨3⟩

/-- A commit entry with an absent commit id sits between two present ones. -/
def svcGap : AdoService where
  get_pull_requests := .ok [prA]
  get_pull_request_commits := fun _ _ =>
    .ok [⟨some "x1"⟩, ⟨none⟩, ⟨some "y2"⟩]
  work_items_list := fun _ => .ok []

/-! ## Resolver and aggregator claims -/

/-- Claim C3: resolver first-match.  For any service-returned order
`l1 ++ p :: l2` where every pull request before `p` has a successfully
fetched commit list not containing the target (by exact, case-sensitive
string equality) and `p` has one that does, the resolver returns `p`.
The pull requests after `p` (`l2`) are completely unconstrained — their
commit oracles may even fail — so nothing beyond the first match is
examined. -/
theorem resolver_first_match (s : AdoService) (head : String)
    (l1 l2 : List GitPullRequest) (p : GitPullRequest)
    (hlist : s.get_pull_requests = .ok (l1 ++ p :: l2))
    (h1 : ∀ q ∈ l1, ∃ cs, AchClient.pull_request_commit_ids s q = .ok cs ∧
        AchClient.contains_commit head cs = false)
    (hp : ∃ cs, AchClient.pull_request_commit_ids s p = .ok cs ∧
        AchClient.contains_commit head cs = true) :
    AchClient.pull_request s head = .ok (some p) := by
  obtain ⟨cs, hok, htrue⟩ := hp
  unfold AchClient.pull_request AchClient.repo_pull_requets
  rw [hlist]
  show AchClient.scan_pull_requests s head (l1 ++ p :: l2) = Except.ok (some p)
  rw [scan_skip s head h1 (p :: l2)]
  simp [AchClient.scan_pull_requests, hok, htrue]

/-- Witness for C3 at concrete inputs: with both pull requests containing
the target, the earlier one (`prA`) wins; and a commit id differing only
in letter case does not match, so the later pull request (`prB`) wins. -/
theorem resolver_first_match_witness :
    AchClient.pull_request svcTie headAbc = Except.ok (some prA)
    ∧ AchClient.pull_request svcCase headAbc = Except.ok (some prB) :=
  ⟨resolver_first_match svcTie headAbc [] [prB] prA rfl (by simp)
      ⟨["abc123"], by decide, by decide⟩,
   resolver_first_match svcCase headAbc [prA] [] prB rfl
      (by
        intro q hq
        rcases List.mem_singleton.mp hq with rfl
        exact ⟨["ABC123"], by decide, by decide⟩)
      ⟨["abc123"], by decide, by decide⟩⟩

/-- Claim C7: resolver exhaustion.  When every pull request's commit list
is fetched successfully and none contains the target, the resolver
returns `Ok(None)` — absence as a successful result, not an error. -/
theorem resolver_exhaustion (s : AdoService) (head : String)
    (prs : List GitPullRequest)
    (hlist : s.get_pull_requests = .ok prs)
    (h : ∀ q ∈ prs, ∃ cs, AchClient.pull_request_commit_ids s q = .ok cs ∧
        AchClient.contains_commit head cs = false) :
    AchClient.pull_request s head = .ok none := by
  unfold AchClient.pull_request AchClient.repo_pull_requets
  rw [hlist]
  show AchClient.scan_pull_requests s head prs = Except.ok none
  rw [← List.append_nil prs, scan_skip s head h []]
  rfl

/-- Witness for C7 at a concrete input: a two-element listing whose commit
lists never contain the target resolves to `Ok(None)`. -/
theorem resolver_exhaustion_witness :
    AchClient.pull_request svcNone headAbc = Except.ok none :=
  resolver_exhaustion svcNone headAbc [prA, prB] rfl
    (fun _ _ => ⟨["def456"], rfl, rfl⟩)

/-- Claim C8: transport errors during resolution are fatal.  If listing
the pull requests fails, or fetching the commit list of the first
not-yet-excluded pull request fails, the resolver returns exactly that
error (no recovery, nothing further examined — the pull requests after
the failing one are unconstrained), and the aggregator propagates the
same error unchanged instead of producing a report. -/
theorem transport_errors_fatal (s : AdoService) (head : String) (e : ServiceError) :
    (s.get_pull_requests = .error e →
       AchClient.pull_request s head = .error e
       ∧ AchClient.info s head = .value (.error e))
    ∧ ∀ (l1 : List GitPullRequest) (p : GitPullRequest) (l2 : List GitPullRequest),
        s.get_pull_requests = .ok (l1 ++ p :: l2) →
        (∀ q ∈ l1, ∃ cs, AchClient.pull_request_commit_ids s q = .ok cs ∧
            AchClient.contains_commit head cs = false) →
        AchClient.pull_request_commit_ids s p = .error e →
        AchClient.pull_request s head = .error e
        ∧ AchClient.info s head = .value (.error e) := by
  constructor
  · intro hlist
    have hpr : AchClient.pull_request s head = .error e := by
      unfold AchClient.pull_request AchClient.repo_pull_requets
      rw [hlist]
    refine ⟨hpr, ?_⟩
    unfold AchClient.info
    rw [hpr]
  · intro l1 p l2 hlist h1 herr
    have hpr : AchClient.pull_request s head = .error e := by
      unfold AchClient.pull_request AchClient.repo_pull_requets
      rw [hlist]
      show AchClient.scan_pull_requests s head (l1 ++ p :: l2) = Except.error e
      rw [scan_skip s head h1 (p :: l2)]
      simp [AchClient.scan_pull_requests, herr]
    refine ⟨hpr, ?_⟩
    unfold AchClient.info
    rw [hpr]

/-- Witness for C8 at concrete inputs: a failing listing call and a
failing commit-list call each surface as the same error from both the
resolver and the aggregator. -/
theorem transport_errors_fatal_witness :
    (AchClient.pull_request svcListErr headAbc = Except.error ⟨5⟩
      ∧ AchClient.info svcListErr headAbc = .value (.error ⟨5⟩))
    ∧ (AchClient.pull_request svcCommitErr headAbc = Except.error ⟨7⟩
      ∧ AchClient.info svcCommitErr headAbc = .value (.error ⟨7⟩)) :=
  ⟨(transport_errors_fatal svcListErr headAbc ⟨5⟩).1 rfl,
   (transport_errors_fatal svcCommitErr headAbc ⟨7⟩).2 [] prA [prB] rfl
      (by simp) rfl⟩

/-- Claim C9: report construction invariant.  A report (`AchInfo`) comes
out of the aggregator only when the resolver positively matched a pull
request, and its `pr` field is that pull request's id; when the resolver
returns absence, the aggregator returns absence. -/
theorem report_only_on_match (s : AdoService) (head : String) :
    (∀ a : AchInfo, AchClient.info s head = .value (.ok (some a)) →
       ∃ p, AchClient.pull_request s head = .ok (some p)
         ∧ a.pr = p.pull_request_id)
    ∧ (AchClient.pull_request s head = .ok none →
       AchClient.info s head = .value (.ok none)) := by
  constructor
  · intro a ha
    rcases hres : AchClient.pull_request s head with e | op
    · simp [AchClient.info, hres] at ha
    · cases op with
      | none => simp [AchClient.info, hres] at ha
      | some p =>
        rcases hw : AchClient.pull_request_work_item_ids s p with _ | r
        · simp [AchClient.info, hres, hw] at ha
        · simp [AchClient.info, hres, hw] at ha
          exact ⟨p, rfl, by rw [← ha]⟩
  · intro hnone
    simp [AchClient.info, hnone]

/-- Witness for C9 at a concrete input: the produced report for `svcTie`
carries the id of a positively matched pull request. -/
theorem report_only_on_match_witness :
    ∃ p, AchClient.pull_request svcTie headAbc = .ok (some p)
      ∧ (AchInfo.mk 42 []).pr = p.pull_request_id :=
  (report_only_on_match svcTie headAbc).1 ⟨42, []⟩ (by decide)

/-- Claim C10: a commit entry whose commit-identifier field is absent is
silently skipped when the commit-id list is built — the call still
succeeds, the entry contributes no identifier (so it can never match any
target), and the present identifiers around it are kept in service
order. -/
theorem absent_commit_id_skipped (s : AdoService) (p : GitPullRequest)
    (l1 l2 : List GitCommitRef)
    (h : s.get_pull_request_commits p.repository_id p.pull_request_id =
        .ok (l1 ++ ⟨none⟩ :: l2)) :
    AchClient.pull_request_commit_ids s p =
      .ok (l1.filterMap GitCommitRef.commit_id ++ l2.filterMap GitCommitRef.commit_id) := by
  unfold AchClient.pull_request_commit_ids
  rw [h]
  simp [flatMap_toList_eq_filterMap, List.filterMap_append, List.filterMap_cons]

/-- Witness for C10 at a concrete input: the absent-id entry of `svcGap`
disappears and the two present ids survive in order. -/
theorem absent_commit_id_skipped_witness :
    AchClient.pull_request_commit_ids svcGap prA =
      .ok (List.filterMap GitCommitRef.commit_id [⟨some "x1"⟩]
        ++ List.filterMap GitCommitRef.commit_id [⟨some "y2"⟩]) :=
  absent_commit_id_skipped svcGap prA [⟨some "x1"⟩] [⟨some "y2"⟩] rfl

/-! ## Partial-success policy and the non-numeric work-item id panic -/

/-- Counterexample to claim C1 as stated.  With `svcBad`, the pull
request `prA` is positively resolved, yet a work-item reference whose id
string is `"abc"` (non-numeric) makes the enrichment hit `expect`, which
panics: the run aborts and no report is produced — contradicting the
claim that this failure is caught locally and a report with an empty
work-item sequence is still produced. -/
theorem partial_success_counterexample :
    AchClient.pull_request svcBad headAbc = Except.ok (some prA)
    ∧ AchClient.info svcBad headAbc = ProcessOutcome.aborted :=
  ⟨by decide, by decide⟩

/-- Claim C1 (amended): for every resolved pull request, a transport
error on the work-item listing call is caught locally (`unwrap_or`) and
the report is still produced with the resolved pull request id and an
empty work-item sequence; but a work-item reference whose id string does
not parse as an integer makes the enrichment panic, aborting the run
with no report. -/
theorem partial_success_amended (s : AdoService) (head : String)
    (p : GitPullRequest)
    (hres : AchClient.pull_request s head = .ok (some p)) :
    (∀ e, s.work_items_list p.pull_request_id = .error e →
       AchClient.info s head = .value (.ok (some ⟨p.pull_request_id, []⟩)))
    ∧ (∀ (refs : List ResourceRef) (r : ResourceRef) (sid : String),
       s.work_items_list p.pull_request_id = .ok refs → r ∈ refs →
       r.id = some sid → parse_i32 sid = none →
       AchClient.info s head = ProcessOutcome.aborted) := by
  constructor
  · intro e he
    simp [AchClient.info, hres, AchClient.pull_request_work_item_ids, he]
  · intro refs r sid hok hmem hid hbad
    have habort := collect_aborted_of_bad hmem hid hbad
    simp [AchClient.info, hres, AchClient.pull_request_work_item_ids, hok, habort]

/-- Witness for the amended C1 at a concrete input: with the work-item
listing failing by transport error, the report still appears with the
resolved id and no work items. -/
theorem partial_success_amended_witness :
    AchClient.info svcWiErr headAbc =
      .value (.ok (some ⟨prA.pull_request_id, []⟩)) :=
  (partial_success_amended svcWiErr headAbc prA (by decide)).1 ⟨3⟩ rfl

/-- Counterexample to claim C2 as stated.  With a non-numeric work-item
id present, the enrichment call does not return a failure to its caller:
it panics (aborts the process), so it is not equal to `value r` for any
returned `Result`. -/
theorem enrichment_no_returned_failure_counterexample :
    AchClient.pull_request_work_item_ids svcBad prA = ProcessOutcome.aborted
    ∧ ∀ r : Except ServiceError (List Int),
        AchClient.pull_request_work_item_ids svcBad prA ≠ ProcessOutcome.value r := by
  have h : AchClient.pull_request_work_item_ids svcBad prA =
      ProcessOutcome.aborted := by decide
  exact ⟨h, fun r hr => ProcessOutcome.noConfusion (h ▸ hr)⟩

/-- Claim C2 (amended): if any linked work-item reference carries an id
string that does not parse as an integer, the enrichment call as a whole
fails by panicking (aborting the run) — no individual reference is
skipped while the rest succeed, and no failure value is returned to the
caller. -/
theorem enrichment_parse_failure_aborts (s : AdoService) (p : GitPullRequest)
    (refs : List ResourceRef) (r : ResourceRef) (sid : String)
    (hok : s.work_items_list p.pull_request_id = .ok refs)
    (hmem : r ∈ refs) (hid : r.id = some sid)
    (hbad : parse_i32 sid = none) :
    AchClient.pull_request_work_item_ids s p = ProcessOutcome.aborted := by
  have habort := collect_aborted_of_bad hmem hid hbad
  simp [AchClient.pull_request_work_item_ids, hok, habort]

/-- Witness for the amended C2 at a concrete input. -/
theorem enrichment_parse_failure_aborts_witness :
    AchClient.pull_request_work_item_ids svcBad prA = ProcessOutcome.aborted :=
  enrichment_parse_failure_aborts svcBad prA [⟨some "abc"⟩] ⟨some "abc"⟩ "abc"
    rfl (List.mem_singleton.mpr rfl) rfl (by decide)
